import Mathlib

/-!
# Verification of the LangHuan schema execution engine

A shallow embedding, in Lean 4, of the core of the LangHuan repository
(`src/langhuan`): the error taxonomy (`error.rs`), the domain-allow-listed
HTTP client (`http.rs`), the pagination driver `PageItems` and the session
wrapper `CommandWithSession` (`schema.rs`), the sandboxed `require` of the
script runtime (`runtime.rs`), the lazy item iterators (`schema/toc.rs`),
and the header parser (`schema/info_parser.rs` together with
`SchemaInfo::from_str` in `schema.rs`).

Lua script callables (the script's `page`, `parse`, `wrap` and the item
producer) are opaque dynamic functions in the source; they are embedded as
explicit Lean functions, with stateful Lua closures modelled by indexing the
successive calls.  Where the source performs an observable side effect that
a claim speaks about (issuing a network request, invoking the script's
`wrap`), the embedded operation additionally returns a count of those
effects; the count is instrumentation of the embedding, not source state.
-/

namespace LangHuan

/-- The error taxonomy of `error.rs`: `Error` with `SchemaError` flattened
into it (the source converts `SchemaError` into `Error::SchemaError` via
`?`; the payload constructors are kept distinct here). -/
inductive Error where
  | luaError : String → Error
  | scriptParseError : String → Error
  | networkError : String → Error
  | notAllowedDomain : String → Error
  | invalidRequest : String → Error
  | invalidUrl : String → Error
deriving DecidableEq, Repr

/-- `HttpRequest` of `http.rs`: URL, method, header mapping, body bytes.
The header map is embedded as an association list and the body as a list of
bytes. -/
structure HttpRequest where
  url : String
  method : String
  headers : List (String × String)
  body : List Nat
deriving DecidableEq, Repr

/-- The part of a parsed URL that `HttpClient::request` inspects: the
optional domain returned by `url.domain()`. -/
structure ParsedUrl where
  domain : Option String
deriving DecidableEq, Repr

/-- Outcome of `HttpClient::request` up to the point where the network is
touched: either a validation failure (no network call), or the decision to
send the request (the source then builds the reqwest call from the parsed
URL, method, headers and body). -/
inductive RequestOutcome where
  | fail : Error → RequestOutcome
  | send : ParsedUrl → String → List (String × String) → List Nat → RequestOutcome
deriving DecidableEq, Repr

/-- `HttpClient::request` of `http.rs`, up to the network boundary.
`parseUrl` stands for the external `reqwest::Url::parse` (an error carries
the parser's message); `allowed` is the `allowed_domains` set fixed at
client construction.  The source parses the URL, then requires
`url.domain()` to be present and in the allow-list before sending. -/
def HttpClient.requestDecision (parseUrl : String → Except String ParsedUrl)
    (allowed : List String) (request : HttpRequest) : RequestOutcome :=
  match parseUrl request.url with
  | .error e => .fail (.invalidUrl (e ++ " for " ++ request.url))
  | .ok url =>
    match url.domain with
    | some domain =>
      if domain ∈ allowed then
        .send url request.method request.headers request.body
      else
        .fail (.notAllowedDomain domain)
    | none => .fail (.invalidUrl ("no domain in " ++ request.url))

/-- A list-producing command (`Command` with
`Request = Option<HttpRequest>`, `Page = String`,
`RequestParams = (u64, Option<String>)`): the two script callables embedded
as pure functions. -/
structure PaginatedCommand (Content : Type) where
  page : String → Nat × Option String → Except Error (Option HttpRequest)
  parse : String → Except Error Content

/-- The mutable fields of `PageItems` that `next_page` reads and writes:
the current page number and the previous page's raw text. -/
structure PageItemsState where
  page : Nat
  pageContent : Option String
deriving DecidableEq, Repr

/-- `PageItems::new`: page number 1, no previous content. -/
def PageItems.new : PageItemsState := ⟨1, none⟩

/-- One `next_page` call's observable outcome: the returned
`Result<Option<PageContent>>`, the state left behind, the number of HTTP
requests issued during the call, and the `(page, prior text)` parameters
passed to the command's `page` (the latter two are instrumentation of the
embedding). -/
structure NextPageResult (Content : Type) where
  result : Except Error (Option Content)
  state : PageItemsState
  httpCalls : Nat
  pageArgs : Nat × Option String

/-- `PageItems::next_page` of `schema.rs`.  The source first
`take()`s `self.page_content` (leaving `None`) and passes it together with
`self.page` to the command's `page`; on `Err` it logs and propagates; on
`Ok(None)` it returns `Ok(None)`; on `Ok(Some(request))` it performs the
HTTP request and the parse (each `?`-propagating its failure), and only on
full success stores the raw response and increments the page number.
`http` stands for `HttpClient::request` at the network boundary. -/
def nextPage {Content : Type} (cmd : PaginatedCommand Content)
    (http : HttpRequest → Except Error String) (id : String)
    (s : PageItemsState) : NextPageResult Content :=
  match cmd.page id (s.page, s.pageContent) with
  | .error e => ⟨.error e, ⟨s.page, none⟩, 0, (s.page, s.pageContent)⟩
  | .ok none => ⟨.ok none, ⟨s.page, none⟩, 0, (s.page, s.pageContent)⟩
  | .ok (some request) =>
    match http request with
    | .error e => ⟨.error e, ⟨s.page, none⟩, 1, (s.page, s.pageContent)⟩
    | .ok response =>
      match cmd.parse response with
      | .error e => ⟨.error e, ⟨s.page, none⟩, 1, (s.page, s.pageContent)⟩
      | .ok content =>
        ⟨.ok (some content), ⟨s.page + 1, some response⟩, 1, (s.page, s.pageContent)⟩

/-- The state after `n` further `next_page` calls. -/
def runPages {Content : Type} (cmd : PaginatedCommand Content)
    (http : HttpRequest → Except Error String) (id : String) :
    PageItemsState → Nat → PageItemsState
  | s, 0 => s
  | s, n + 1 => runPages cmd http id (nextPage cmd http id s).state n

/-! ## Script runtime: sandboxed `require` (`runtime.rs`) -/

/-- The names registered in `RUNTIME_PACKAGES` (with the default features,
`json` and `url` are registered). -/
def runtimePackages : List String := ["json", "url"]

/-- A capability instance produced by `Package::create_instance`.  The
source value is a fresh Lua table each time; identity is embedded as the
`ident` token, allocated from a per-`Lua` counter. -/
structure PackageInstance where
  pkg : String
  ident : Nat
deriving DecidableEq, Repr

/-- The per-`Runtime` Lua state that `environment_require` touches: the
global `package.loaded` table (an association list) and the allocator for
fresh instance identities (instrumentation standing for Lua table
identity). -/
structure LuaState where
  loaded : List (String × PackageInstance)
  nextId : Nat
deriving DecidableEq, Repr

/-- The state of a freshly constructed `Runtime`: `mlua::Lua::new()` with
the sandbox enabled; no capability instance has been cached yet. -/
def Runtime.new : LuaState := ⟨[], 0⟩

/-- `Runtime::create_environment` builds a fresh environment table with a
`require` closure over the runtime's `Lua`; it reads and writes nothing of
`package.loaded`, so the `LuaState` is unchanged. -/
def Runtime.createEnvironment (lua : LuaState) : LuaState := lua

/-- `str::starts_with` of the source, evaluated over the string's
characters (Lean's own `String.startsWith` is defined through `substrEq`
and does not reduce definitionally). -/
def strStartsWith (s p : String) : Bool := p.data.isPrefixOf s.data

/-- `Runtime::environment_require` of `runtime.rs`.  The source first
consults the global `package.loaded` cache; on a miss it rejects names
without the `@` prefix, then looks the suffix up in `RUNTIME_PACKAGES`,
creating and caching a fresh instance on a hit and failing with a runtime
error otherwise.  Errors are `mlua::Error::RuntimeError` messages. -/
def Runtime.environmentRequire (name : String) (lua : LuaState) :
    Except String (PackageInstance × LuaState) :=
  match lua.loaded.lookup name with
  | some value => .ok (value, lua)
  | none =>
    if ¬ strStartsWith name "@" then
      .error ("invalid module name: " ++ name ++
        ", you can only import pre-defined modules that start with @")
    else
      let packageName := name.drop 1
      if packageName ∈ runtimePackages then
        let required : PackageInstance := ⟨packageName, lua.nextId⟩
        .ok (required, ⟨(name, required) :: lua.loaded, lua.nextId + 1⟩)
      else
        .error ("module not found: " ++ name)

/-- Invariant of reachable `LuaState`s: every cached key carries the `@`
prefix and a registered suffix (only `environment_require`'s hit branch
inserts). -/
def LuaState.wf (lua : LuaState) : Prop :=
  ∀ kv ∈ lua.loaded, strStartsWith (Prod.fst kv) "@" = true ∧
    ((Prod.fst kv).drop 1) ∈ runtimePackages

/-! ## Session wrapper: `CommandWithSession` (`schema.rs`) -/

/-- The session-variant binding as `CommandWithSession::page` uses it: the
script's `wrap(request, session)` callable (`SessionCommand::wrap` calls it
with the request and a clone of the session).  `Session` is the opaque
session value. -/
structure SessionCommand (Session : Type) where
  wrap : HttpRequest → Session → Except Error HttpRequest

/-- `CommandWithSession` over a list-producing base command: the base
command, the optional session binding, and the optional live session
value. -/
structure CommandWithSession (Content Session : Type) where
  command : PaginatedCommand Content
  sessionCommand : Option (SessionCommand Session)
  session : Option Session

/-- The closure `CommandWithSession::page` passes to `CommandRequest::wrap`:
if both the session binding and the session value are present, the request
goes through `session_command.wrap`; otherwise it is returned unchanged.
The second component counts invocations of the script's `wrap`
(instrumentation). -/
def sessionWrapMap {Session : Type} (sessionCommand : Option (SessionCommand Session))
    (session : Option Session) (request : HttpRequest) :
    Except Error HttpRequest × Nat :=
  match sessionCommand, session with
  | some sc, some s => (sc.wrap request s, 1)
  | some _, none => (.ok request, 0)
  | none, some _ => (.ok request, 0)
  | none, none => (.ok request, 0)

/-- `CommandRequest::wrap` for `Option<HttpRequest>` (`schema.rs`): `None`
passes through as `Ok(None)` without calling `map`; `Some(request)` applies
`map` and re-wraps in `Some`.  The invocation count of `map` is threaded
through. -/
def optionRequestWrap (r : Option HttpRequest)
    (map : HttpRequest → Except Error HttpRequest × Nat) :
    Except Error (Option HttpRequest) × Nat :=
  match r with
  | some request =>
    let (res, n) := map request
    (res.map some, n)
  | none => (.ok none, 0)

/-- `CommandWithSession::page` for a list-producing base command: delegate
to the base command's `page`, then pass the result through
`CommandRequest::wrap` with the session closure.  The second component
counts invocations of the script's `wrap`. -/
def CommandWithSession.page {Content Session : Type}
    (c : CommandWithSession Content Session) (id : String)
    (params : Nat × Option String) : Except Error (Option HttpRequest) × Nat :=
  match c.command.page id params with
  | .error e => (.error e, 0)
  | .ok path => optionRequestWrap path (sessionWrapMap c.sessionCommand c.session)

/-! ## Lazy item iterators (`schema/toc.rs`) -/

/-- `TocItem` of `schema/toc.rs`. -/
structure TocItem where
  title : String
  id : String
  tags : List String
deriving DecidableEq, Repr

/-- One call of the script's producer callable: `Ok(Some(item))`,
`Ok(None)` (the script returned nil), or a thrown script fault. -/
inductive ProducerCall (Item : Type) where
  | item : Item → ProducerCall Item
  | done : ProducerCall Item
  | fault : String → ProducerCall Item
deriving DecidableEq, Repr

/-- `TocItemIter::next`: call the stored `parse_fn`, turn a fault into an
error item via `map_err`, and `transpose` (`Ok(None)` becomes `None`,
i.e. end of iteration).  The Lua closure's hidden state is embedded by
indexing its successive calls: `parseFn k` is the result of the `k`-th
call, and the iterator's position `k` advances by one on every `next`. -/
def TocItemIter.next (parseFn : Nat → ProducerCall TocItem) (k : Nat) :
    Option (Except Error TocItem) × Nat :=
  (match parseFn k with
   | .item it => some (.ok it)
   | .done => none
   | .fault e => some (.error (.luaError e)), k + 1)

/-! ## Header parser (`schema/info_parser.rs`) -/

/-- Parser input: the remaining characters of the script source. -/
abbrev Input := List Char

/-- The characters consumed by nom's `space0`: space and horizontal tab. -/
def isSpaceChar (c : Char) : Bool := c = ' ' || c = '\t'

/-- `match_allowed_name`'s character class: alphanumerics, `_`, `.`, `-`
(the source uses `char::is_alphanumeric`; the embedding restricts to the
ASCII alphanumerics via `Char.isAlphanum`). -/
def isAllowedNameChar (c : Char) : Bool :=
  c.isAlphanum || c = '_' || c = '.' || c = '-'

/-- nom's `tag`: succeed with the remaining input iff `t` is a prefix. -/
def nomTag (t : List Char) (i : Input) : Option Input :=
  match t, i with
  | [], rest => some rest
  | _ :: _, [] => none
  | c :: ts, x :: xs => if c = x then nomTag ts xs else none

/-- nom's `space0`: drop leading spaces and tabs, never failing. -/
def nomSpace0 (i : Input) : Input := i.dropWhile isSpaceChar

/-- nom's `take_while1 p`: the maximal prefix of characters satisfying
`p`, failing when it is empty; returns (remaining input, taken prefix). -/
def nomTakeWhile1 (p : Char → Bool) (i : Input) : Option (Input × List Char) :=
  if i.takeWhile p = [] then none
  else some (i.dropWhile p, i.takeWhile p)

/-- nom's `line_ending`: `\n` or `\r\n`. -/
def nomLineEnding (i : Input) : Option Input :=
  match i with
  | '\n' :: rest => some rest
  | '\r' :: '\n' :: rest => some rest
  | _ => none

/-- Whether the input starts with a `\r` that is not followed by `\n`
(nom's `not_line_ending` rejects input whose line is terminated so). -/
def loneCarriageReturn : Input → Bool
  | '\r' :: '\n' :: _ => false
  | '\r' :: _ => true
  | _ => false

/-- nom's `not_line_ending`: the prefix of characters other than `\r` and
`\n`; a `\r` not followed by `\n` is a parse failure. -/
def nomNotLineEnding (i : Input) : Option (Input × List Char) :=
  let rest := i.dropWhile (fun c => !(c = '\r' || c = '\n'))
  if loneCarriageReturn rest then none
  else some (rest, i.takeWhile (fun c => !(c = '\r' || c = '\n')))

/-- Rust's `str::trim` as `parse_field_value` applies it (the value
contains no line endings; the embedding trims the ASCII whitespace
characters covered by `Char.isWhitespace`). -/
def rustTrim (l : List Char) : List Char :=
  ((l.dropWhile Char.isWhitespace).reverse.dropWhile Char.isWhitespace).reverse

/-- `parse_field_name`: `--`, optional spaces, `@`, then a nonempty run of
allowed name characters. -/
def parseFieldName (i : Input) : Option (Input × List Char) := do
  let i ← nomTag ['-', '-'] i
  let i := nomSpace0 i
  let i ← nomTag ['@'] i
  nomTakeWhile1 isAllowedNameChar i

/-- `parse_field_value`: the rest of the line, a line ending, and the value
trimmed. -/
def parseFieldValue (i : Input) : Option (Input × List Char) := do
  let (i, value) ← nomNotLineEnding i
  let i ← nomLineEnding i
  some (i, rustTrim value)

/-- `parse_field`: name, optional spaces, `:`, optional spaces, value. -/
def parseField (i : Input) : Option (Input × (List Char × List Char)) := do
  let (i, name) ← parseFieldName i
  let i := nomSpace0 i
  let i ← nomTag [':'] i
  let i := nomSpace0 i
  let (i, value) ← parseFieldValue i
  some (i, (name, value))

/-- `parse_whitespace_line`: optional spaces then a line ending. -/
def parseWhitespaceLine (i : Input) : Option Input :=
  nomLineEnding (nomSpace0 i)

/-- `Line` of `info_parser.rs`: a header field or a whitespace-only line. -/
inductive HeaderLine where
  | field : List Char → List Char → HeaderLine
  | whitespace : HeaderLine
deriving DecidableEq, Repr

/-- `parse_line`: try the whitespace line first, then a field line. -/
def parseLine (i : Input) : Option (Input × HeaderLine) :=
  match parseWhitespaceLine i with
  | some rest => some (rest, .whitespace)
  | none =>
    match parseField i with
    | some (rest, (n, v)) => some (rest, .field n v)
    | none => none

/-! ## `SchemaInfo` and its header scan (`schema.rs`) -/

/-- `SchemaInfo` of `schema.rs`.  `id` is the parsed 128-bit UUID value as
a natural number; `legal_domains` is a `HashSet`, embedded as a
duplicate-free list in insertion order. -/
structure SchemaInfo where
  id : Nat
  name : String
  author : String
  description : String
  lhVersion : String
  legalDomains : List String
deriving DecidableEq, Repr

/-- A hexadecimal digit's value. -/
def hexVal (c : Char) : Option Nat :=
  if '0' ≤ c ∧ c ≤ '9' then some (c.toNat - '0'.toNat)
  else if 'a' ≤ c ∧ c ≤ 'f' then some (c.toNat - 'a'.toNat + 10)
  else if 'A' ≤ c ∧ c ≤ 'F' then some (c.toNat - 'A'.toNat + 10)
  else none

/-- The value of a string of hexadecimal digits, most significant first. -/
def hexDigitsVal (cs : List Char) : Option Nat :=
  cs.foldl (fun acc c => acc.bind (fun a => (hexVal c).map (fun h => a * 16 + h))) (some 0)

/-- Modelled external dependency: `uuid::Uuid::parse_str`, restricted to
the two forms the engine's headers use — the hyphenated `8-4-4-4-12` form
and the simple 32-digit form.  Any other shape fails. -/
def uuidParse (s : String) : Option Nat :=
  let cs := s.data
  if cs.contains '-' then
    match cs.splitOn '-' with
    | [g1, g2, g3, g4, g5] =>
      if g1.length = 8 ∧ g2.length = 4 ∧ g3.length = 4 ∧ g4.length = 4 ∧
          g5.length = 12 then
        hexDigitsVal (g1 ++ g2 ++ g3 ++ g4 ++ g5)
      else none
    | _ => none
  else if cs.length = 32 then hexDigitsVal cs else none

/-- The `uuid` crate's parse-error rendering (`e.to_string()`), which the
source wraps in `ScriptParseError`; the exact text is opaque here. -/
def uuidErrorMessage (v : String) : String := "invalid UUID: " ++ v

/-- The rendering of a nom parse error (`format!("{}", e)`), which the
source wraps in `ScriptParseError`; the exact text is opaque here. -/
def parseFailMessage : String := "header line parse error"

/-- `HashSet::insert` on the embedded domain set: a no-op on a present
element, an insertion otherwise. -/
def insertDomain (v : String) (l : List String) : List String :=
  if v ∈ l then l else l ++ [v]

/-- The construction of the final `SchemaInfo` record at the end of
`SchemaInfo::from_str`: each required field in the order written in the
source (`id` with its UUID parse first, then `name`, `author`,
`description`, `lh-version`), a missing one reported as
`missing field: <name>`. -/
def buildSchemaInfo (id name author description lhVersion : Option String)
    (legalDomains : List String) : Except Error SchemaInfo :=
  match id with
  | none => .error (.scriptParseError "missing field: id")
  | some idv =>
    match uuidParse idv with
    | none => .error (.scriptParseError (uuidErrorMessage idv))
    | some uuid =>
      match name with
      | none => .error (.scriptParseError "missing field: name")
      | some namev =>
        match author with
        | none => .error (.scriptParseError "missing field: author")
        | some authorv =>
          match description with
          | none => .error (.scriptParseError "missing field: description")
          | some descriptionv =>
            match lhVersion with
            | none => .error (.scriptParseError "missing field: lh-version")
            | some lhVersionv =>
              .ok ⟨uuid, namev, authorv, descriptionv, lhVersionv, legalDomains⟩

/-- The `for line in info_parser::parse_script(s)` loop of
`SchemaInfo::from_str`, with the field iterator (`FieldIter::next` plus
`parse_line`) inlined: stop and build at end of input or at the first
whitespace-only line, propagate a line parse failure, and dispatch each
field on its name, rejecting an unrecognized one.  The `fuel` argument
makes the recursion structural; `fromStrGo_fuel_irrelevant` shows any fuel
above the input length yields the same result, and the entry point supplies
`input.length + 1`. -/
def SchemaInfo.fromStrGo :
    Nat → Input → Option String → Option String → Option String →
    Option String → Option String → List String → Except Error SchemaInfo
  | 0, _, _, _, _, _, _, _ => .error (.scriptParseError "out of fuel")
  | fuel + 1, input, id, name, author, description, lhVersion, legalDomains =>
    if input = [] then
      buildSchemaInfo id name author description lhVersion legalDomains
    else
      match parseLine input with
      | none => .error (.scriptParseError parseFailMessage)
      | some (_, .whitespace) =>
        buildSchemaInfo id name author description lhVersion legalDomains
      | some (rest, .field n v) =>
        let nm := n.asString
        let vl := v.asString
        if nm = "id" then
          SchemaInfo.fromStrGo fuel rest (some vl) name author description
            lhVersion legalDomains
        else if nm = "name" then
          SchemaInfo.fromStrGo fuel rest id (some vl) author description
            lhVersion legalDomains
        else if nm = "author" then
          SchemaInfo.fromStrGo fuel rest id name (some vl) description
            lhVersion legalDomains
        else if nm = "description" then
          SchemaInfo.fromStrGo fuel rest id name author (some vl)
            lhVersion legalDomains
        else if nm = "lh-version" then
          SchemaInfo.fromStrGo fuel rest id name author description
            (some vl) legalDomains
        else if nm = "legal-domains" then
          SchemaInfo.fromStrGo fuel rest id name author description
            lhVersion (insertDomain vl legalDomains)
        else
          .error (.scriptParseError ("unknown field in the script: " ++ nm))

/-- `SchemaInfo::from_str`: scan the script source from the start with
empty accumulators. -/
def SchemaInfo.fromStr (s : String) : Except Error SchemaInfo :=
  SchemaInfo.fromStrGo (s.length + 1) s.data none none none none none []

/-- The header's field lines as `FieldIter` yields them, up to the first
whitespace-only line or the end of input (a staged view of the same
line scan, used to state which fields a header contains). -/
def parseFieldsGo : Nat → Input → Except Error (List (String × String))
  | 0, _ => .error (.scriptParseError "out of fuel")
  | fuel + 1, input =>
    if input = [] then .ok []
    else
      match parseLine input with
      | none => .error (.scriptParseError parseFailMessage)
      | some (_, .whitespace) => .ok []
      | some (rest, .field n v) =>
        (parseFieldsGo fuel rest).map (fun fs => (n.asString, v.asString) :: fs)

/-- The field lines of a script's header. -/
def parseHeaderFields (s : String) : Except Error (List (String × String)) :=
  parseFieldsGo (s.length + 1) s.data

/-- The six field names `SchemaInfo::from_str` recognizes. -/
def recognizedFields : List String :=
  ["id", "name", "author", "description", "lh-version", "legal-domains"]

/-! ## Supporting lemmas -/

theorem nextPage_of_page_error {Content : Type} {cmd : PaginatedCommand Content}
    {http : HttpRequest → Except Error String} {id : String} {s : PageItemsState}
    {e : Error} (h : cmd.page id (s.page, s.pageContent) = .error e) :
    nextPage cmd http id s = ⟨.error e, ⟨s.page, none⟩, 0, (s.page, s.pageContent)⟩ := by
  unfold nextPage; simp only [h]

theorem nextPage_of_page_none {Content : Type} {cmd : PaginatedCommand Content}
    {http : HttpRequest → Except Error String} {id : String} {s : PageItemsState}
    (h : cmd.page id (s.page, s.pageContent) = .ok none) :
    nextPage cmd http id s = ⟨.ok none, ⟨s.page, none⟩, 0, (s.page, s.pageContent)⟩ := by
  unfold nextPage; simp only [h]

theorem nextPage_of_http_error {Content : Type} {cmd : PaginatedCommand Content}
    {http : HttpRequest → Except Error String} {id : String} {s : PageItemsState}
    {request : HttpRequest} {e : Error}
    (h1 : cmd.page id (s.page, s.pageContent) = .ok (some request))
    (h2 : http request = .error e) :
    nextPage cmd http id s = ⟨.error e, ⟨s.page, none⟩, 1, (s.page, s.pageContent)⟩ := by
  unfold nextPage; simp only [h1, h2]

theorem nextPage_of_parse_error {Content : Type} {cmd : PaginatedCommand Content}
    {http : HttpRequest → Except Error String} {id : String} {s : PageItemsState}
    {request : HttpRequest} {response : String} {e : Error}
    (h1 : cmd.page id (s.page, s.pageContent) = .ok (some request))
    (h2 : http request = .ok response) (h3 : cmd.parse response = .error e) :
    nextPage cmd http id s = ⟨.error e, ⟨s.page, none⟩, 1, (s.page, s.pageContent)⟩ := by
  unfold nextPage; simp only [h1, h2, h3]

theorem nextPage_of_success {Content : Type} {cmd : PaginatedCommand Content}
    {http : HttpRequest → Except Error String} {id : String} {s : PageItemsState}
    {request : HttpRequest} {response : String} {content : Content}
    (h1 : cmd.page id (s.page, s.pageContent) = .ok (some request))
    (h2 : http request = .ok response) (h3 : cmd.parse response = .ok content) :
    nextPage cmd http id s =
      ⟨.ok (some content), ⟨s.page + 1, some response⟩, 1, (s.page, s.pageContent)⟩ := by
  unfold nextPage; simp only [h1, h2, h3]

/-- A successful `List.lookup` result is a member of the list. -/
theorem lookup_mem {α : Type} [DecidableEq α] {β : Type} {a : α} {b : β} :
    ∀ {l : List (α × β)}, l.lookup a = some b → (a, b) ∈ l := by
  intro l
  induction l with
  | nil => intro h; simp [List.lookup] at h
  | cons kv l ih =>
    intro h
    rw [List.lookup] at h
    by_cases hk : a = kv.1
    · simp [hk] at h
      subst h
      exact hk ▸ List.mem_cons_self _ _
    · have : (a == kv.1) = false := beq_false_of_ne hk
      rw [this] at h
      exact List.mem_cons_of_mem _ (ih h)

/-- `environment_require` preserves the cache invariant: it only ever
inserts a key with the `@` prefix and a registered suffix. -/
theorem environmentRequire_preserves_wf {name : String} {lua : LuaState}
    {inst : PackageInstance} {s' : LuaState} (hwf : lua.wf)
    (h : Runtime.environmentRequire name lua = .ok (inst, s')) : s'.wf := by
  unfold Runtime.environmentRequire at h
  cases hl : lua.loaded.lookup name with
  | some v => rw [hl] at h; simp at h; exact h.2 ▸ hwf
  | none =>
    rw [hl] at h
    by_cases hpre : strStartsWith name "@"
    · simp [hpre] at h
      by_cases hreg : (name.drop 1) ∈ runtimePackages
      · simp [hreg] at h
        intro kv hkv
        rw [← h.2] at hkv
        rcases List.mem_cons.mp hkv with hkv | hkv
        · subst hkv; exact ⟨hpre, hreg⟩
        · exact hwf kv hkv
      · simp [hreg] at h
    · simp [hpre] at h

/-- The initial runtime state satisfies the cache invariant. -/
theorem Runtime.new_wf : Runtime.new.wf := by
  intro kv hkv
  simp [Runtime.new] at hkv

theorem requestDecision_of_parse_error {parseUrl : String → Except String ParsedUrl}
    {allowed : List String} {request : HttpRequest} {e : String}
    (h : parseUrl request.url = .error e) :
    HttpClient.requestDecision parseUrl allowed request =
      .fail (.invalidUrl (e ++ " for " ++ request.url)) := by
  unfold HttpClient.requestDecision; simp only [h]

theorem requestDecision_of_no_domain {parseUrl : String → Except String ParsedUrl}
    {allowed : List String} {request : HttpRequest} {u : ParsedUrl}
    (h1 : parseUrl request.url = .ok u) (h2 : u.domain = none) :
    HttpClient.requestDecision parseUrl allowed request =
      .fail (.invalidUrl ("no domain in " ++ request.url)) := by
  unfold HttpClient.requestDecision; simp only [h1, h2]

theorem requestDecision_of_not_allowed {parseUrl : String → Except String ParsedUrl}
    {allowed : List String} {request : HttpRequest} {u : ParsedUrl} {d : String}
    (h1 : parseUrl request.url = .ok u) (h2 : u.domain = some d) (h3 : d ∉ allowed) :
    HttpClient.requestDecision parseUrl allowed request = .fail (.notAllowedDomain d) := by
  unfold HttpClient.requestDecision; simp only [h1, h2]; rw [if_neg h3]

theorem requestDecision_of_allowed {parseUrl : String → Except String ParsedUrl}
    {allowed : List String} {request : HttpRequest} {u : ParsedUrl} {d : String}
    (h1 : parseUrl request.url = .ok u) (h2 : u.domain = some d) (h3 : d ∈ allowed) :
    HttpClient.requestDecision parseUrl allowed request =
      .send u request.method request.headers request.body := by
  unfold HttpClient.requestDecision; simp only [h1, h2]; rw [if_pos h3]

/-! ## Claims about the HTTP client -/

/-- Claim C3: `HttpClient::request` issues no network call when the URL
fails to parse or has no domain (invalid-url failure) or when the domain is
not in the allow-list fixed at construction (domain-not-allowed failure); a
network call is attempted only when the parsed domain is allowed. -/
theorem c3_domain_allowlist (parseUrl : String → Except String ParsedUrl)
    (allowed : List String) (request : HttpRequest) :
    (∀ e, parseUrl request.url = .error e →
      HttpClient.requestDecision parseUrl allowed request =
        .fail (.invalidUrl (e ++ " for " ++ request.url))) ∧
    (∀ u, parseUrl request.url = .ok u → u.domain = none →
      HttpClient.requestDecision parseUrl allowed request =
        .fail (.invalidUrl ("no domain in " ++ request.url))) ∧
    (∀ u d, parseUrl request.url = .ok u → u.domain = some d → d ∉ allowed →
      HttpClient.requestDecision parseUrl allowed request =
        .fail (.notAllowedDomain d)) ∧
    (∀ u m hd b, HttpClient.requestDecision parseUrl allowed request = .send u m hd b →
      ∃ d, parseUrl request.url = .ok u ∧ u.domain = some d ∧ d ∈ allowed) := by
  refine ⟨?_, ?_, ?_, ?_⟩
  · intro e he
    exact requestDecision_of_parse_error he
  · intro u hu hd
    exact requestDecision_of_no_domain hu hd
  · intro u d hu hd hmem
    exact requestDecision_of_not_allowed hu hd hmem
  · intro u m hd b hsend
    cases hp : parseUrl request.url with
    | error e => rw [requestDecision_of_parse_error hp] at hsend; simp at hsend
    | ok u' =>
      cases hdom : u'.domain with
      | none => rw [requestDecision_of_no_domain hp hdom] at hsend; simp at hsend
      | some d =>
        by_cases hmem : d ∈ allowed
        · rw [requestDecision_of_allowed hp hdom hmem] at hsend
          have hu : u' = u := by injection hsend
          subst hu
          exact ⟨d, rfl, hdom, hmem⟩
        · rw [requestDecision_of_not_allowed hp hdom hmem] at hsend
          simp at hsend

/-- Witness for C3 at a concrete client: a request whose URL's domain is
outside the allow-list fails with the domain-not-allowed error. -/
theorem c3_domain_allowlist_witness :
    HttpClient.requestDecision
      (fun _ => .ok ⟨some "b.example"⟩) ["a.example"]
      ⟨"https://b.example/x", "GET", [], []⟩ =
      .fail (.notAllowedDomain "b.example") :=
  (c3_domain_allowlist (fun _ => .ok ⟨some "b.example"⟩) ["a.example"]
      ⟨"https://b.example/x", "GET", [], []⟩).2.2.1
    ⟨some "b.example"⟩ "b.example" rfl rfl (by decide)

/-! ## Claims about the paginator -/

/-- Claim C9: the page number starts at 1; a `next_page` call that returns
a parsed page increments it by exactly 1; a failing call or a "no request"
end result leaves it unchanged. -/
theorem c9_page_counter {Content : Type} (cmd : PaginatedCommand Content)
    (http : HttpRequest → Except Error String) (id : String) (s : PageItemsState) :
    PageItems.new.page = 1 ∧
    (∀ c, (nextPage cmd http id s).result = .ok (some c) →
      (nextPage cmd http id s).state.page = s.page + 1) ∧
    ((nextPage cmd http id s).result = .ok none →
      (nextPage cmd http id s).state.page = s.page) ∧
    (∀ e, (nextPage cmd http id s).result = .error e →
      (nextPage cmd http id s).state.page = s.page) := by
  refine ⟨rfl, ?_, ?_, ?_⟩ <;>
  · cases hpg : cmd.page id (s.page, s.pageContent) with
    | error e => simp [nextPage_of_page_error hpg]
    | ok req =>
      cases req with
      | none => simp [nextPage_of_page_none hpg]
      | some request =>
        cases hht : http request with
        | error e => simp [nextPage_of_http_error hpg hht]
        | ok response =>
          cases hps : cmd.parse response with
          | error e => simp [nextPage_of_parse_error hpg hht hps]
          | ok content => simp [nextPage_of_success hpg hht hps]

/-- Witness for C9: a one-page command at the initial state advances the
page number from 1 to 2 on a successful call. -/
theorem c9_page_counter_witness :
    (nextPage
      (⟨fun _ _ => .ok (some ⟨"https://a.example/", "GET", [], []⟩),
        fun _ => .ok 0⟩ : PaginatedCommand Nat)
      (fun _ => .ok "body") "k" PageItems.new).state.page = 1 + 1 :=
  (c9_page_counter
      (⟨fun _ _ => .ok (some ⟨"https://a.example/", "GET", [], []⟩),
        fun _ => .ok 0⟩ : PaginatedCommand Nat)
      (fun _ => .ok "body") "k" PageItems.new).2.1 0 rfl

/-- Claim C10: `next_page` takes the stored previous text and passes it
(with the current page number) to the command's `page`; the stored text is
replaced only on a fully successful fetch-and-parse (and then with the raw
response); after a page-build failure, an HTTP or parse failure, or a "no
request" result the stored text is `None` and the page number unchanged, so
the next call passes `None` at the same page number. -/
theorem c10_prior_text {Content : Type} (cmd : PaginatedCommand Content)
    (http : HttpRequest → Except Error String) (id : String) (s : PageItemsState) :
    (nextPage cmd http id s).pageArgs = (s.page, s.pageContent) ∧
    ((nextPage cmd http id s).result = .ok none →
      (nextPage cmd http id s).state = ⟨s.page, none⟩ ∧
      (nextPage cmd http id (nextPage cmd http id s).state).pageArgs = (s.page, none)) ∧
    (∀ e, (nextPage cmd http id s).result = .error e →
      (nextPage cmd http id s).state = ⟨s.page, none⟩ ∧
      (nextPage cmd http id (nextPage cmd http id s).state).pageArgs = (s.page, none)) ∧
    (∀ x, (nextPage cmd http id s).state.pageContent = some x →
      ∃ request, cmd.page id (s.page, s.pageContent) = .ok (some request) ∧
        http request = .ok x ∧
        ∃ c, cmd.parse x = .ok c ∧ (nextPage cmd http id s).result = .ok (some c)) := by
  have hargs : ∀ t : PageItemsState, (nextPage cmd http id t).pageArgs = (t.page, t.pageContent) := by
    intro t
    cases hpg : cmd.page id (t.page, t.pageContent) with
    | error e => rw [nextPage_of_page_error hpg]
    | ok req =>
      cases req with
      | none => rw [nextPage_of_page_none hpg]
      | some request =>
        cases hht : http request with
        | error e => rw [nextPage_of_http_error hpg hht]
        | ok response =>
          cases hps : cmd.parse response with
          | error e => rw [nextPage_of_parse_error hpg hht hps]
          | ok content => rw [nextPage_of_success hpg hht hps]
  have hstall : ∀ t : PageItemsState, t.pageContent = none →
      (nextPage cmd http id t).pageArgs = (t.page, none) := by
    intro t ht
    rw [hargs t, ht]
  refine ⟨hargs s, ?_, ?_, ?_⟩
  · intro hres
    cases hpg : cmd.page id (s.page, s.pageContent) with
    | error e => rw [nextPage_of_page_error hpg] at hres; simp at hres
    | ok req =>
      cases req with
      | none =>
        rw [nextPage_of_page_none hpg]
        exact ⟨rfl, hstall ⟨s.page, none⟩ rfl⟩
      | some request =>
        cases hht : http request with
        | error e => rw [nextPage_of_http_error hpg hht] at hres; simp at hres
        | ok response =>
          cases hps : cmd.parse response with
          | error e => rw [nextPage_of_parse_error hpg hht hps] at hres; simp at hres
          | ok content => rw [nextPage_of_success hpg hht hps] at hres; simp at hres
  · intro e hres
    cases hpg : cmd.page id (s.page, s.pageContent) with
    | error e' =>
      rw [nextPage_of_page_error hpg]
      exact ⟨rfl, hstall ⟨s.page, none⟩ rfl⟩
    | ok req =>
      cases req with
      | none => rw [nextPage_of_page_none hpg] at hres; simp at hres
      | some request =>
        cases hht : http request with
        | error e' =>
          rw [nextPage_of_http_error hpg hht]
          exact ⟨rfl, hstall ⟨s.page, none⟩ rfl⟩
        | ok response =>
          cases hps : cmd.parse response with
          | error e' =>
            rw [nextPage_of_parse_error hpg hht hps]
            exact ⟨rfl, hstall ⟨s.page, none⟩ rfl⟩
          | ok content => rw [nextPage_of_success hpg hht hps] at hres; simp at hres
  · intro x hx
    cases hpg : cmd.page id (s.page, s.pageContent) with
    | error e => rw [nextPage_of_page_error hpg] at hx; simp at hx
    | ok req =>
      cases req with
      | none => rw [nextPage_of_page_none hpg] at hx; simp at hx
      | some request =>
        cases hht : http request with
        | error e => rw [nextPage_of_http_error hpg hht] at hx; simp at hx
        | ok response =>
          cases hps : cmd.parse response with
          | error e => rw [nextPage_of_parse_error hpg hht hps] at hx; simp at hx
          | ok content =>
            rw [nextPage_of_success hpg hht hps] at hx
            simp at hx
            subst hx
            exact ⟨request, rfl, hht, content, hps, by rw [nextPage_of_success hpg hht hps]⟩

/-- Witness for C10: a command whose `page` fails leaves the state at the
same page number with no stored text. -/
theorem c10_prior_text_witness :
    (nextPage
      (⟨fun _ _ => .error (.luaError "boom"), fun _ => .ok 0⟩ : PaginatedCommand Nat)
      (fun _ => .ok "body") "k" ⟨3, some "prior"⟩).state = ⟨3, none⟩ :=
  ((c10_prior_text
      (⟨fun _ _ => .error (.luaError "boom"), fun _ => .ok 0⟩ : PaginatedCommand Nat)
      (fun _ => .ok "body") "k" ⟨3, some "prior"⟩).2.2.1 (.luaError "boom") rfl).1

/-! ## Claims about pagination termination -/

/-- A list command whose `page` result depends on the prior text: it
yields a request exactly when no previous page text is passed.  Used to
exhibit the non-latching behavior of `next_page`. -/
def priorSensitiveCommand : PaginatedCommand Nat :=
  ⟨fun _ params =>
    match params.2 with
    | some _ => .ok none
    | none => .ok (some ⟨"https://a.example/", "GET", [], []⟩),
   fun _ => .ok 0⟩

/-- An HTTP oracle that always succeeds with a fixed body. -/
def constHttpOk : HttpRequest → Except Error String := fun _ => .ok "body"

/-- Counterexample to C1: `next_page` does not latch the "no request"
sentinel.  With `priorSensitiveCommand`, the first call succeeds, the
second call returns the sentinel (`Ok(None)`), yet the third call — on the
same `PageItems` value — issues a network request and does not return the
end-of-sequence signal, because `next_page` re-invokes the command's `page`
with the prior text reset to `None`. -/
theorem c1_counterexample :
    (nextPage priorSensitiveCommand constHttpOk "k"
      (nextPage priorSensitiveCommand constHttpOk "k" PageItems.new).state).result =
      .ok none ∧
    (nextPage priorSensitiveCommand constHttpOk "k"
      (nextPage priorSensitiveCommand constHttpOk "k"
        (nextPage priorSensitiveCommand constHttpOk "k" PageItems.new).state).state).httpCalls =
      1 ∧
    (nextPage priorSensitiveCommand constHttpOk "k"
      (nextPage priorSensitiveCommand constHttpOk "k"
        (nextPage priorSensitiveCommand constHttpOk "k" PageItems.new).state).state).result ≠
      .ok none := by
  refine ⟨rfl, rfl, ?_⟩
  intro h
  exact Option.noConfusion (Except.ok.inj h)

/-- Claim C1 (amended): a `next_page` call that returns the "no request"
sentinel leaves the state at (same page number, no stored text); and
whenever the command's `page` returns the sentinel for that stabilized
argument pair (page number, `None`) — in particular whenever its result
does not depend on the prior text — every subsequent call returns
`Ok(None)`, performs no network call, and leaves the state unchanged. -/
theorem c1_sentinel_stable {Content : Type} (cmd : PaginatedCommand Content)
    (http : HttpRequest → Except Error String) (id : String) (s : PageItemsState)
    (hstall : cmd.page id (s.page, none) = .ok none) :
    ((nextPage cmd http id s).result = .ok none →
      (nextPage cmd http id s).state = ⟨s.page, none⟩) ∧
    (∀ n, runPages cmd http id ⟨s.page, none⟩ n = ⟨s.page, none⟩ ∧
      (nextPage cmd http id (runPages cmd http id ⟨s.page, none⟩ n)).result = .ok none ∧
      (nextPage cmd http id (runPages cmd http id ⟨s.page, none⟩ n)).httpCalls = 0) := by
  have hstep : nextPage cmd http id ⟨s.page, none⟩ =
      ⟨.ok none, ⟨s.page, none⟩, 0, (s.page, none)⟩ :=
    nextPage_of_page_none hstall
  constructor
  · intro hres
    cases hpg : cmd.page id (s.page, s.pageContent) with
    | error e => rw [nextPage_of_page_error hpg] at hres; simp at hres
    | ok req =>
      cases req with
      | none => rw [nextPage_of_page_none hpg]
      | some request =>
        cases hht : http request with
        | error e => rw [nextPage_of_http_error hpg hht] at hres; simp at hres
        | ok response =>
          cases hps : cmd.parse response with
          | error e => rw [nextPage_of_parse_error hpg hht hps] at hres; simp at hres
          | ok content => rw [nextPage_of_success hpg hht hps] at hres; simp at hres
  · intro n
    induction n with
    | zero => exact ⟨rfl, by simp only [runPages, hstep], by simp only [runPages, hstep]⟩
    | succ n ih =>
      have h1 : runPages cmd http id ⟨s.page, none⟩ (n + 1) =
          runPages cmd http id ⟨s.page, none⟩ n := by
        simp only [runPages, hstep]
      exact ⟨h1 ▸ ih.1, h1 ▸ ih.2.1, h1 ▸ ih.2.2⟩

/-- Witness for the amended C1: a command whose `page` always returns the
sentinel still reports end-of-sequence after three further polls. -/
theorem c1_sentinel_stable_witness :
    (nextPage (⟨fun _ _ => .ok none, fun _ => .ok 0⟩ : PaginatedCommand Nat)
      (fun _ => .ok "body") "k"
      (runPages (⟨fun _ _ => .ok none, fun _ => .ok 0⟩ : PaginatedCommand Nat)
        (fun _ => .ok "body") "k" ⟨1, none⟩ 3)).result = .ok none :=
  ((c1_sentinel_stable (⟨fun _ _ => .ok none, fun _ => .ok 0⟩ : PaginatedCommand Nat)
      (fun _ => .ok "body") "k" ⟨1, none⟩ rfl).2 3).2.1

/-! ## Claims about the sandboxed `require` -/

/-- Counterexample to C2: the capability cache lives in the runtime's
global `package.loaded`, not in the environment.  After one load's
environment has required `@json` (leaving the runtime state with the cached
instance of identity 0), a *fresh environment on the same `Runtime`*
requires `@json` and receives the identical cached instance (identity 0)
rather than a fresh one. -/
theorem c2_shared_cache_counterexample :
    Runtime.environmentRequire "@json" (Runtime.createEnvironment Runtime.new) =
      .ok (⟨"json", 0⟩, ⟨[("@json", ⟨"json", 0⟩)], 1⟩) ∧
    Runtime.environmentRequire "@json"
      (Runtime.createEnvironment ⟨[("@json", ⟨"json", 0⟩)], 1⟩) =
      .ok (⟨"json", 0⟩, ⟨[("@json", ⟨"json", 0⟩)], 1⟩) :=
  ⟨rfl, rfl⟩

/-- Claim C2 (amended): the first require of a registered capability name
constructs a fresh instance and caches it; any later require of the same
name on the same `Runtime` — including from a fresh environment, since
`create_environment` does not touch `package.loaded` — returns the
identical cached instance and leaves the state unchanged.  (A fresh
instance requires a fresh `Runtime`, whose cache starts empty.) -/
theorem c2_require_caching (lua : LuaState) (name : String) :
    (lua.loaded.lookup name = none → strStartsWith name "@" = true →
      (name.drop 1) ∈ runtimePackages →
      Runtime.environmentRequire name lua =
        .ok (⟨name.drop 1, lua.nextId⟩,
          ⟨(name, ⟨name.drop 1, lua.nextId⟩) :: lua.loaded, lua.nextId + 1⟩)) ∧
    (∀ inst, lua.loaded.lookup name = some inst →
      Runtime.environmentRequire name lua = .ok (inst, lua)) ∧
    (∀ inst s', Runtime.environmentRequire name lua = .ok (inst, s') →
      Runtime.environmentRequire name (Runtime.createEnvironment s') = .ok (inst, s')) := by
  have hhit : ∀ (st : LuaState) inst, st.loaded.lookup name = some inst →
      Runtime.environmentRequire name st = .ok (inst, st) := by
    intro st inst h
    unfold Runtime.environmentRequire
    rw [h]
  refine ⟨?_, hhit lua, ?_⟩
  · intro hmiss hpre hreg
    unfold Runtime.environmentRequire
    rw [hmiss]
    simp [hpre, hreg]
  · intro inst s' h
    unfold Runtime.environmentRequire at h
    cases hl : lua.loaded.lookup name with
    | some v =>
      rw [hl] at h
      simp only [Except.ok.injEq, Prod.mk.injEq] at h
      obtain ⟨h1, h2⟩ := h
      subst h1; subst h2
      exact hhit _ _ hl
    | none =>
      rw [hl] at h
      by_cases hpre : strStartsWith name "@"
      · simp only [hpre, not_true_eq_false, if_false] at h
        by_cases hreg : (name.drop 1) ∈ runtimePackages
        · simp only [if_pos hreg, Except.ok.injEq, Prod.mk.injEq] at h
          obtain ⟨h1, h2⟩ := h
          subst h1; subst h2
          refine hhit _ _ ?_
          simp [List.lookup]
        · simp [if_neg hreg] at h
      · simp [hpre] at h

/-- Witness for the amended C2: on a fresh runtime, the first `@json`
require caches instance 0, and a repeat require from a fresh environment
returns that same instance. -/
theorem c2_require_caching_witness :
    Runtime.environmentRequire "@json"
      (Runtime.createEnvironment ⟨[("@json", ⟨"json", 0⟩)], 1⟩) =
      .ok (⟨"json", 0⟩, ⟨[("@json", ⟨"json", 0⟩)], 1⟩) :=
  (c2_require_caching Runtime.new "@json").2.2 ⟨"json", 0⟩
    ⟨[("@json", ⟨"json", 0⟩)], 1⟩ rfl

/-- Claim C4: a `require` of a name without the reserved `@` prefix fails
with the invalid-module-name fault, and a prefixed name whose suffix is not
registered fails with the hard module-not-found fault — never a soft nil.
The hypothesis is the invariant of every reachable runtime state (see
`Runtime.new_wf` and `environmentRequire_preserves_wf`): the global cache
only holds `@`-prefixed registered names. -/
theorem c4_require_faults (lua : LuaState) (name : String) (hwf : lua.wf) :
    (strStartsWith name "@" = false →
      Runtime.environmentRequire name lua =
        .error ("invalid module name: " ++ name ++
          ", you can only import pre-defined modules that start with @")) ∧
    (strStartsWith name "@" = true → (name.drop 1) ∉ runtimePackages →
      Runtime.environmentRequire name lua = .error ("module not found: " ++ name)) := by
  constructor
  · intro hpre
    have hl : lua.loaded.lookup name = none := by
      cases hsome : lua.loaded.lookup name with
      | none => rfl
      | some v =>
        have hkey := (hwf (name, v) (lookup_mem hsome)).1
        rw [hpre] at hkey
        exact Bool.noConfusion hkey
    unfold Runtime.environmentRequire
    rw [hl]
    simp [hpre]
  · intro hpre hreg
    have hl : lua.loaded.lookup name = none := by
      cases hsome : lua.loaded.lookup name with
      | none => rfl
      | some v => exact absurd (hwf (name, v) (lookup_mem hsome)).2 hreg
    unfold Runtime.environmentRequire
    rw [hl]
    simp [hpre, hreg]

/-- Witness for C4 on a fresh runtime: `require("json")` (no prefix) is the
invalid-module-name fault and `require("@bogus")` is the module-not-found
fault. -/
theorem c4_require_faults_witness :
    Runtime.environmentRequire "json" Runtime.new =
      .error ("invalid module name: " ++ "json" ++
        ", you can only import pre-defined modules that start with @") ∧
    Runtime.environmentRequire "@bogus" Runtime.new =
      .error ("module not found: " ++ "@bogus") :=
  ⟨(c4_require_faults Runtime.new "json" Runtime.new_wf).1 rfl,
   (c4_require_faults Runtime.new "@bogus" Runtime.new_wf).2 rfl (by decide)⟩

/-! ## Claims about the item iterators -/

/-- A producer that faults on its first call and yields an item on its
second. -/
def faultThenItemProducer : Nat → ProducerCall TocItem :=
  fun k => if k = 0 then .fault "boom" else .item ⟨"title", "1", []⟩

/-- Counterexample to C5: a thrown script fault is not terminal.  The first
advance yields the error item, but the second advance re-invokes the
producer and yields a further (non-end) item instead of ending the
sequence. -/
theorem c5_fault_not_terminal :
    TocItemIter.next faultThenItemProducer 0 = (some (.error (.luaError "boom")), 1) ∧
    TocItemIter.next faultThenItemProducer 1 = (some (.ok ⟨"title", "1", []⟩), 2) :=
  ⟨rfl, rfl⟩

/-- Claim C5 (amended): each advance of the item sequence re-invokes the
script's producer exactly once; a nil return is translated into
end-of-sequence; a thrown script fault yields one error item but does not
terminate the iterator — the following advance re-invokes the producer and
yields whatever it returns. -/
theorem c5_iterator_behavior (parseFn : Nat → ProducerCall TocItem) (k : Nat) :
    (TocItemIter.next parseFn k).2 = k + 1 ∧
    (∀ it, parseFn k = .item it →
      TocItemIter.next parseFn k = (some (.ok it), k + 1)) ∧
    (parseFn k = .done → TocItemIter.next parseFn k = (none, k + 1)) ∧
    (∀ e, parseFn k = .fault e →
      TocItemIter.next parseFn k = (some (.error (.luaError e)), k + 1)) ∧
    (∀ e it, parseFn k = .fault e → parseFn (k + 1) = .item it →
      TocItemIter.next parseFn (k + 1) = (some (.ok it), k + 2)) := by
  refine ⟨rfl, ?_, ?_, ?_, ?_⟩
  · intro it h; unfold TocItemIter.next; simp only [h]
  · intro h; unfold TocItemIter.next; simp only [h]
  · intro e h; unfold TocItemIter.next; simp only [h]
  · intro e it h1 h2; unfold TocItemIter.next; simp only [h2]

/-- Witness for C5 at a concrete producer: a nil return on the first call
ends the sequence. -/
theorem c5_iterator_behavior_witness :
    TocItemIter.next (fun _ => ProducerCall.done) 0 = (none, 0 + 1) :=
  (c5_iterator_behavior (fun _ => ProducerCall.done) 0).2.2.1 rfl

/-! ## Claims about the session wrapper -/

/-- Claim C6: with both a session binding and a live session value present,
every request `CommandWithSession::page` produces is the base command's
request passed through the script's `wrap`; with either absent, the output
equals the base command's output unchanged (and `wrap` is never invoked);
and a "no request" sentinel from the base command passes through unchanged
without invoking `wrap`. -/
theorem c6_session_wrap {Content Session : Type} (c : CommandWithSession Content Session)
    (id : String) (params : Nat × Option String) :
    (∀ sc s req, c.sessionCommand = some sc → c.session = some s →
      c.command.page id params = .ok (some req) →
      c.page id params = ((sc.wrap req s).map some, 1)) ∧
    ((c.sessionCommand = none ∨ c.session = none) →
      c.page id params = (c.command.page id params, 0)) ∧
    (c.command.page id params = .ok none → c.page id params = (.ok none, 0)) := by
  refine ⟨?_, ?_, ?_⟩
  · intro sc s req hsc hs hpage
    unfold CommandWithSession.page
    simp only [hpage]
    unfold optionRequestWrap sessionWrapMap
    simp only [hsc, hs]
  · intro habs
    cases hpage : c.command.page id params with
    | error e =>
      unfold CommandWithSession.page
      simp only [hpage]
    | ok path =>
      unfold CommandWithSession.page
      simp only [hpage]
      cases path with
      | none => unfold optionRequestWrap; rfl
      | some req =>
        unfold optionRequestWrap sessionWrapMap
        rcases habs with h | h
        · simp only [h]
          cases hs : c.session <;> rfl
        · simp only [h]
          cases hsc : c.sessionCommand <;> rfl
  · intro hpage
    unfold CommandWithSession.page
    simp only [hpage]
    unfold optionRequestWrap
    rfl

/-- Witness for C6: a concrete wrap that rewrites the URL is applied to the
base command's request when both session parts are present. -/
theorem c6_session_wrap_witness :
    CommandWithSession.page
      (⟨⟨fun _ _ => .ok (some ⟨"https://a.example/", "GET", [], []⟩), fun _ => .ok 0⟩,
        some ⟨fun r s => .ok ⟨r.url ++ "?session=" ++ s, r.method, r.headers, r.body⟩⟩,
        some "tok"⟩ : CommandWithSession Nat String) "k" (1, none) =
      (.ok (some ⟨"https://a.example/?session=tok", "GET", [], []⟩), 1) :=
  (c6_session_wrap
      (⟨⟨fun _ _ => .ok (some ⟨"https://a.example/", "GET", [], []⟩), fun _ => .ok 0⟩,
        some ⟨fun r s => .ok ⟨r.url ++ "?session=" ++ s, r.method, r.headers, r.body⟩⟩,
        some "tok"⟩ : CommandWithSession Nat String) "k" (1, none)).1
    ⟨fun r s => .ok ⟨r.url ++ "?session=" ++ s, r.method, r.headers, r.body⟩⟩
    "tok" ⟨"https://a.example/", "GET", [], []⟩ rfl rfl rfl

/-! ## Input-consumption bounds for the header parser

These establish that each successfully parsed line strictly consumes input,
so the fuel `input.length + 1` supplied by `SchemaInfo.fromStr` can never
run out (`fromStrGo_fuel_irrelevant`). -/

theorem length_dropWhile_le (p : Char → Bool) :
    ∀ l : List Char, (l.dropWhile p).length ≤ l.length := by
  intro l
  induction l with
  | nil => simp [List.dropWhile]
  | cons c cs ih =>
    rw [List.dropWhile]
    cases hc : p c with
    | true => simp only []; exact Nat.le_succ_of_le ih
    | false => simp only []; exact Nat.le_refl _

theorem length_dropWhile_lt_of_takeWhile_ne_nil (p : Char → Bool) :
    ∀ l : List Char, l.takeWhile p ≠ [] → (l.dropWhile p).length < l.length := by
  intro l h
  cases l with
  | nil => simp [List.takeWhile] at h
  | cons c cs =>
    rw [List.takeWhile] at h
    rw [List.dropWhile]
    cases hc : p c with
    | true => simp only []; exact Nat.lt_succ_of_le (length_dropWhile_le p cs)
    | false => rw [hc] at h; simp at h

theorem nomTag_length : ∀ (t i r : List Char), nomTag t i = some r → r.length ≤ i.length := by
  intro t
  induction t with
  | nil =>
    intro i r h
    simp only [nomTag, Option.some.injEq] at h
    subst h
    exact Nat.le_refl _
  | cons c ts ih =>
    intro i r h
    cases i with
    | nil => simp [nomTag] at h
    | cons x xs =>
      simp only [nomTag] at h
      by_cases hc : c = x
      · rw [if_pos hc] at h
        exact Nat.le_succ_of_le (ih xs r h)
      · rw [if_neg hc] at h
        exact absurd h (by simp)

theorem nomSpace0_length (i : List Char) : (nomSpace0 i).length ≤ i.length :=
  length_dropWhile_le isSpaceChar i

theorem nomTakeWhile1_length (p : Char → Bool) (i r tk : List Char)
    (h : nomTakeWhile1 p i = some (r, tk)) : r.length < i.length := by
  unfold nomTakeWhile1 at h
  by_cases hne : i.takeWhile p = []
  · rw [if_pos hne] at h
    exact absurd h (by simp)
  · rw [if_neg hne] at h
    simp only [Option.some.injEq, Prod.mk.injEq] at h
    obtain ⟨h1, _⟩ := h
    subst h1
    exact length_dropWhile_lt_of_takeWhile_ne_nil p i hne

theorem nomLineEnding_length (i r : List Char) (h : nomLineEnding i = some r) :
    r.length < i.length := by
  unfold nomLineEnding at h
  split at h
  · injection h with h; subst h; simp only [List.length_cons]; omega
  · injection h with h; subst h; simp only [List.length_cons]; omega
  · exact absurd h (by simp)

theorem nomNotLineEnding_length (i r tk : List Char)
    (h : nomNotLineEnding i = some (r, tk)) : r.length ≤ i.length := by
  unfold nomNotLineEnding at h
  by_cases hcr : loneCarriageReturn (i.dropWhile (fun c => !(c = '\r' || c = '\n')))
  · rw [if_pos hcr] at h
    exact absurd h (by simp)
  · rw [if_neg hcr] at h
    simp only [Option.some.injEq, Prod.mk.injEq] at h
    obtain ⟨h1, _⟩ := h
    subst h1
    exact length_dropWhile_le _ i

theorem parseFieldName_length (i r : List Char) (n : List Char)
    (h : parseFieldName i = some (r, n)) : r.length < i.length := by
  unfold parseFieldName at h
  cases h1 : nomTag ['-', '-'] i with
  | none => rw [h1] at h; simp at h
  | some i1 =>
    rw [h1] at h
    simp only [Option.bind_eq_bind, Option.some_bind] at h
    cases h2 : nomTag ['@'] (nomSpace0 i1) with
    | none => rw [h2] at h; simp at h
    | some i2 =>
      rw [h2] at h
      simp only [Option.some_bind] at h
      calc r.length < i2.length := nomTakeWhile1_length _ _ _ _ h
        _ ≤ (nomSpace0 i1).length := nomTag_length _ _ _ h2
        _ ≤ i1.length := nomSpace0_length i1
        _ ≤ i.length := nomTag_length _ _ _ h1

theorem parseFieldValue_length (i r : List Char) (v : List Char)
    (h : parseFieldValue i = some (r, v)) : r.length < i.length := by
  unfold parseFieldValue at h
  cases h1 : nomNotLineEnding i with
  | none => rw [h1] at h; simp at h
  | some p =>
    obtain ⟨i1, value⟩ := p
    rw [h1] at h
    simp only [Option.bind_eq_bind, Option.some_bind] at h
    cases h2 : nomLineEnding i1 with
    | none => rw [h2] at h; simp at h
    | some i2 =>
      rw [h2] at h
      simp only [Option.some_bind, Option.some.injEq, Prod.mk.injEq] at h
      obtain ⟨hr, _⟩ := h
      subst hr
      calc i2.length < i1.length := nomLineEnding_length _ _ h2
        _ ≤ i.length := nomNotLineEnding_length _ _ _ h1

theorem parseField_length (i r : List Char) (nv : List Char × List Char)
    (h : parseField i = some (r, nv)) : r.length < i.length := by
  unfold parseField at h
  cases h1 : parseFieldName i with
  | none => rw [h1] at h; simp at h
  | some p1 =>
    obtain ⟨i1, name⟩ := p1
    rw [h1] at h
    simp only [Option.bind_eq_bind, Option.some_bind] at h
    cases h2 : nomTag [':'] (nomSpace0 i1) with
    | none => rw [h2] at h; simp at h
    | some i2 =>
      rw [h2] at h
      simp only [Option.some_bind] at h
      cases h3 : parseFieldValue (nomSpace0 i2) with
      | none => rw [h3] at h; simp at h
      | some p3 =>
        obtain ⟨i3, value⟩ := p3
        rw [h3] at h
        simp only [Option.some_bind, Option.some.injEq, Prod.mk.injEq] at h
        obtain ⟨hr, _⟩ := h
        subst hr
        calc i3.length < (nomSpace0 i2).length := parseFieldValue_length _ _ _ h3
          _ ≤ i2.length := nomSpace0_length i2
          _ ≤ (nomSpace0 i1).length := nomTag_length _ _ _ h2
          _ ≤ i1.length := nomSpace0_length i1
          _ < i.length := parseFieldName_length _ _ _ h1

theorem parseWhitespaceLine_length (i r : List Char)
    (h : parseWhitespaceLine i = some r) : r.length < i.length := by
  unfold parseWhitespaceLine at h
  calc r.length < (nomSpace0 i).length := nomLineEnding_length _ _ h
    _ ≤ i.length := nomSpace0_length i

theorem parseLine_length (i r : List Char) (l : HeaderLine)
    (h : parseLine i = some (r, l)) : r.length < i.length := by
  unfold parseLine at h
  cases hw : parseWhitespaceLine i with
  | some rest =>
    rw [hw] at h
    simp only [Option.some.injEq, Prod.mk.injEq] at h
    obtain ⟨h1, _⟩ := h
    subst h1
    exact parseWhitespaceLine_length _ _ hw
  | none =>
    rw [hw] at h
    cases hf : parseField i with
    | none => rw [hf] at h; simp at h
    | some p =>
      obtain ⟨rest, nv⟩ := p
      obtain ⟨n, v⟩ := nv
      rw [hf] at h
      simp only [Option.some.injEq, Prod.mk.injEq] at h
      obtain ⟨h1, _⟩ := h
      subst h1
      exact parseField_length _ _ _ hf

/-! Case equations for the two fuel-structured scans. -/

theorem parseFieldsGo_empty (fuel : Nat) : parseFieldsGo (fuel + 1) [] = .ok [] := rfl

theorem parseFieldsGo_none {input : Input} (he : input ≠ [])
    (hpl : parseLine input = none) (fuel : Nat) :
    parseFieldsGo (fuel + 1) input = .error (.scriptParseError parseFailMessage) := by
  unfold parseFieldsGo
  rw [if_neg he, hpl]

theorem parseFieldsGo_whitespace {input rest : Input} (he : input ≠ [])
    (hpl : parseLine input = some (rest, .whitespace)) (fuel : Nat) :
    parseFieldsGo (fuel + 1) input = .ok [] := by
  unfold parseFieldsGo
  rw [if_neg he, hpl]

theorem parseFieldsGo_field {input rest : Input} {n v : List Char} (he : input ≠ [])
    (hpl : parseLine input = some (rest, .field n v)) (fuel : Nat) :
    parseFieldsGo (fuel + 1) input =
      (parseFieldsGo fuel rest).map (fun fs => (n.asString, v.asString) :: fs) := by
  conv_lhs => unfold parseFieldsGo
  rw [if_neg he, hpl]

theorem fromStrGo_empty (fuel : Nat) (id name author description lhVersion : Option String)
    (legalDomains : List String) :
    SchemaInfo.fromStrGo (fuel + 1) [] id name author description lhVersion legalDomains =
      buildSchemaInfo id name author description lhVersion legalDomains := rfl

theorem fromStrGo_none {input : Input} (he : input ≠ []) (hpl : parseLine input = none)
    (fuel : Nat) (id name author description lhVersion : Option String)
    (legalDomains : List String) :
    SchemaInfo.fromStrGo (fuel + 1) input id name author description lhVersion legalDomains =
      .error (.scriptParseError parseFailMessage) := by
  unfold SchemaInfo.fromStrGo
  rw [if_neg he, hpl]

theorem fromStrGo_whitespace {input rest : Input} (he : input ≠ [])
    (hpl : parseLine input = some (rest, .whitespace)) (fuel : Nat)
    (id name author description lhVersion : Option String) (legalDomains : List String) :
    SchemaInfo.fromStrGo (fuel + 1) input id name author description lhVersion legalDomains =
      buildSchemaInfo id name author description lhVersion legalDomains := by
  unfold SchemaInfo.fromStrGo
  rw [if_neg he, hpl]

theorem fromStrGo_field {input rest : Input} {n v : List Char} (he : input ≠ [])
    (hpl : parseLine input = some (rest, .field n v)) (fuel : Nat)
    (id name author description lhVersion : Option String) (legalDomains : List String) :
    SchemaInfo.fromStrGo (fuel + 1) input id name author description lhVersion legalDomains =
      (if n.asString = "id" then
        SchemaInfo.fromStrGo fuel rest (some v.asString) name author description
          lhVersion legalDomains
      else if n.asString = "name" then
        SchemaInfo.fromStrGo fuel rest id (some v.asString) author description
          lhVersion legalDomains
      else if n.asString = "author" then
        SchemaInfo.fromStrGo fuel rest id name (some v.asString) description
          lhVersion legalDomains
      else if n.asString = "description" then
        SchemaInfo.fromStrGo fuel rest id name author (some v.asString)
          lhVersion legalDomains
      else if n.asString = "lh-version" then
        SchemaInfo.fromStrGo fuel rest id name author description
          (some v.asString) legalDomains
      else if n.asString = "legal-domains" then
        SchemaInfo.fromStrGo fuel rest id name author description
          lhVersion (insertDomain v.asString legalDomains)
      else
        .error (.scriptParseError ("unknown field in the script: " ++ n.asString))) := by
  conv_lhs => unfold SchemaInfo.fromStrGo
  rw [if_neg he, hpl]

/-- The fuel supplied to `SchemaInfo.fromStrGo` is irrelevant as long as it
exceeds the input length: the out-of-fuel case is unreachable, and
`SchemaInfo.fromStr`'s choice of `input.length + 1` is sufficient. -/
theorem fromStrGo_fuel_irrelevant :
    ∀ (fuel₁ fuel₂ : Nat) (input : Input)
      (id name author description lhVersion : Option String) (legalDomains : List String),
      input.length < fuel₁ → input.length < fuel₂ →
      SchemaInfo.fromStrGo fuel₁ input id name author description lhVersion legalDomains =
        SchemaInfo.fromStrGo fuel₂ input id name author description lhVersion legalDomains := by
  intro fuel₁
  induction fuel₁ with
  | zero =>
    intro fuel₂ input _ _ _ _ _ _ h1 _
    exact absurd h1 (Nat.not_lt_zero _)
  | succ fuel₁ ih =>
    intro fuel₂ input id name author description lhVersion legalDomains h1 h2
    cases fuel₂ with
    | zero => exact absurd h2 (Nat.not_lt_zero _)
    | succ fuel₂ =>
      by_cases he : input = []
      · subst he
        rw [fromStrGo_empty, fromStrGo_empty]
      · cases hpl : parseLine input with
        | none => rw [fromStrGo_none he hpl, fromStrGo_none he hpl]
        | some p =>
          obtain ⟨rest, line⟩ := p
          have hlen := parseLine_length input rest line hpl
          cases line with
          | whitespace => rw [fromStrGo_whitespace he hpl, fromStrGo_whitespace he hpl]
          | field n v =>
            have hr1 : rest.length < fuel₁ :=
              Nat.lt_of_lt_of_le hlen (Nat.lt_succ_iff.mp h1)
            have hr2 : rest.length < fuel₂ :=
              Nat.lt_of_lt_of_le hlen (Nat.lt_succ_iff.mp h2)
            rw [fromStrGo_field he hpl, fromStrGo_field he hpl]
            split_ifs <;>
              first
                | exact ih fuel₂ rest _ _ _ _ _ _ hr1 hr2
                | rfl

/-! ## The field-dispatch loop on extracted fields (C7) -/

/-- The pure field-dispatch part of the `SchemaInfo::from_str` loop,
applied to an already extracted list of header fields — the same dispatch
`SchemaInfo.fromStrGo` interleaves with line parsing
(`fromStrGo_eq_processFields`). -/
def processFields : List (String × String) → Option String → Option String →
    Option String → Option String → Option String → List String →
    Except Error SchemaInfo
  | [], id, name, author, description, lhVersion, legalDomains =>
    buildSchemaInfo id name author description lhVersion legalDomains
  | (n, v) :: fs, id, name, author, description, lhVersion, legalDomains =>
    if n = "id" then
      processFields fs (some v) name author description lhVersion legalDomains
    else if n = "name" then
      processFields fs id (some v) author description lhVersion legalDomains
    else if n = "author" then
      processFields fs id name (some v) description lhVersion legalDomains
    else if n = "description" then
      processFields fs id name author (some v) lhVersion legalDomains
    else if n = "lh-version" then
      processFields fs id name author description (some v) legalDomains
    else if n = "legal-domains" then
      processFields fs id name author description lhVersion (insertDomain v legalDomains)
    else
      .error (.scriptParseError ("unknown field in the script: " ++ n))

/-- The interleaved scan agrees with first extracting the fields and then
dispatching, whenever extraction succeeds. -/
theorem fromStrGo_eq_processFields :
    ∀ (fuel : Nat) (input : Input) (fs : List (String × String))
      (id name author description lhVersion : Option String) (legalDomains : List String),
      parseFieldsGo fuel input = .ok fs →
      SchemaInfo.fromStrGo fuel input id name author description lhVersion legalDomains =
        processFields fs id name author description lhVersion legalDomains := by
  intro fuel
  induction fuel with
  | zero =>
    intro input fs _ _ _ _ _ _ h
    exact absurd h (by simp [parseFieldsGo])
  | succ fuel ih =>
    intro input fs id name author description lhVersion legalDomains h
    by_cases he : input = []
    · subst he
      rw [parseFieldsGo_empty] at h
      injection h with h
      subst h
      rw [fromStrGo_empty]
      rfl
    · cases hpl : parseLine input with
      | none =>
        rw [parseFieldsGo_none he hpl] at h
        exact absurd h (by simp)
      | some p =>
        obtain ⟨rest, line⟩ := p
        cases line with
        | whitespace =>
          rw [parseFieldsGo_whitespace he hpl] at h
          injection h with h
          subst h
          rw [fromStrGo_whitespace he hpl]
          rfl
        | field n v =>
          rw [parseFieldsGo_field he hpl] at h
          cases hrec : parseFieldsGo fuel rest with
          | error e =>
            rw [hrec] at h
            exact absurd
              (show (Except.error e : Except Error (List (String × String))) = .ok fs from h)
              (by simp)
          | ok fs' =>
            rw [hrec] at h
            have h' : Except.ok ((n.asString, v.asString) :: fs') =
                (Except.ok fs : Except Error (List (String × String))) := h
            injection h' with h'
            subst h'
            rw [fromStrGo_field he hpl]
            simp only [processFields]
            split_ifs <;>
              first
                | exact ih rest fs' _ _ _ _ _ _ hrec
                | rfl

/-- The first field name in the list that is not recognized. -/
def firstUnknown : List (String × String) → Option String
  | [] => none
  | (n, _) :: fs => if n ∈ recognizedFields then firstUnknown fs else some n

theorem firstUnknown_not_recognized :
    ∀ (fs : List (String × String)) (n : String),
      firstUnknown fs = some n → n ∉ recognizedFields := by
  intro fs
  induction fs with
  | nil => intro n h; simp [firstUnknown] at h
  | cons f fs ih =>
    obtain ⟨nm, v⟩ := f
    intro n h
    unfold firstUnknown at h
    by_cases hrec : nm ∈ recognizedFields
    · rw [if_pos hrec] at h
      exact ih n h
    · rw [if_neg hrec] at h
      injection h with h
      subst h
      exact hrec

theorem firstUnknown_isSome_of_mem :
    ∀ (fs : List (String × String)) (f : String × String), f ∈ fs →
      Prod.fst f ∉ recognizedFields → ∃ n, firstUnknown fs = some n := by
  intro fs
  induction fs with
  | nil => intro f h; simp at h
  | cons g fs ih =>
    obtain ⟨nm, v⟩ := g
    intro f hmem hunk
    by_cases hrec : nm ∈ recognizedFields
    · rcases List.mem_cons.mp hmem with rfl | hmem'
      · exact absurd hrec hunk
      · obtain ⟨n, hn⟩ := ih f hmem' hunk
        exact ⟨n, by unfold firstUnknown; rw [if_pos hrec]; exact hn⟩
    · exact ⟨nm, by unfold firstUnknown; rw [if_neg hrec]⟩

theorem processFields_firstUnknown :
    ∀ (fs : List (String × String)) (n : String)
      (id name author description lhVersion : Option String) (legalDomains : List String),
      firstUnknown fs = some n →
      processFields fs id name author description lhVersion legalDomains =
        .error (.scriptParseError ("unknown field in the script: " ++ n)) := by
  intro fs
  induction fs with
  | nil => intro n _ _ _ _ _ _ h; simp [firstUnknown] at h
  | cons f fs ih =>
    obtain ⟨nm, v⟩ := f
    intro n id name author description lhVersion legalDomains h
    unfold firstUnknown at h
    by_cases hrec : nm ∈ recognizedFields
    · rw [if_pos hrec] at h
      have hrec' : nm = "id" ∨ nm = "name" ∨ nm = "author" ∨ nm = "description" ∨
          nm = "lh-version" ∨ nm = "legal-domains" := by
        simpa [recognizedFields] using hrec
      rcases hrec' with rfl | rfl | rfl | rfl | rfl | rfl <;>
        · simp only [processFields]
          split_ifs <;> exact ih n _ _ _ _ _ _ h
    · rw [if_neg hrec] at h
      injection h with h
      subst h
      have hne : nm ≠ "id" ∧ nm ≠ "name" ∧ nm ≠ "author" ∧ nm ≠ "description" ∧
          nm ≠ "lh-version" ∧ nm ≠ "legal-domains" := by
        simpa [recognizedFields, not_or] using hrec
      obtain ⟨h1, h2, h3, h4, h5, h6⟩ := hne
      simp [processFields, h1, h2, h3, h4, h5, h6]

/-! ## Claims about the header parser -/

/-- Claim C7: a script header containing a field line whose name is not one
of the six recognized names fails to parse as a `SchemaInfo`, with a parse
error identifying the (first) unknown field; it is never silently
ignored. -/
theorem c7_unknown_field (s : String) (fs : List (String × String))
    (hp : parseHeaderFields s = .ok fs)
    (hunk : ∃ f ∈ fs, Prod.fst f ∉ recognizedFields) :
    ∃ n, n ∉ recognizedFields ∧
      SchemaInfo.fromStr s =
        .error (.scriptParseError ("unknown field in the script: " ++ n)) := by
  obtain ⟨f, hmem, hfu⟩ := hunk
  obtain ⟨n, hn⟩ := firstUnknown_isSome_of_mem fs f hmem hfu
  refine ⟨n, firstUnknown_not_recognized fs n hn, ?_⟩
  unfold SchemaInfo.fromStr
  rw [fromStrGo_eq_processFields (s.length + 1) s.data fs none none none none none [] hp]
  exact processFields_firstUnknown fs n none none none none none [] hn

set_option maxRecDepth 80000 in
/-- Witness for C7: a header declaring a field `bogus` fails to load with
the unknown-field error naming `bogus`. -/
theorem c7_unknown_field_witness :
    ∃ n, n ∉ recognizedFields ∧
      SchemaInfo.fromStr "--@id: x\n--@bogus: y\n\n" =
        .error (.scriptParseError ("unknown field in the script: " ++ n)) :=
  c7_unknown_field "--@id: x\n--@bogus: y\n\n" [("id", "x"), ("bogus", "y")] rfl
    ⟨("bogus", "y"), by decide, by decide⟩

/-- The scenario header of C8 (six field lines, a blank line, then a stub
script body). -/
def scenarioHeader : String :=
  "--@id: 198ca153-ccae-4f82-9218-9b6657796b57\n--@name: t\n--@author: a\n--@description: d\n--@lh-version: 1.0\n--@legal-domains: example.com\n\nreturn {}\n"

set_option maxRecDepth 80000 in
/-- Claim C8: the scenario header parses successfully with `id` equal to
the stated UUID (as its 128-bit value) and `legal_domains` the singleton
set of `example.com`; an id value that is not a UUID is a load failure;
repeated `legal-domains` lines collapse into one set element; and each
required field, when missing, is reported as `missing field: <name>`. -/
theorem c8_header_scenario :
    SchemaInfo.fromStr scenarioHeader =
      .ok ⟨0x198ca153ccae4f8292189b6657796b57, "t", "a", "d", "1.0", ["example.com"]⟩ ∧
    SchemaInfo.fromStr
        "--@id: not-a-uuid\n--@name: t\n--@author: a\n--@description: d\n--@lh-version: 1.0\n\n" =
      .error (.scriptParseError (uuidErrorMessage "not-a-uuid")) ∧
    SchemaInfo.fromStr
        "--@id: 198ca153-ccae-4f82-9218-9b6657796b57\n--@name: t\n--@author: a\n--@description: d\n--@lh-version: 1.0\n--@legal-domains: example.com\n--@legal-domains: example.com\n\n" =
      .ok ⟨0x198ca153ccae4f8292189b6657796b57, "t", "a", "d", "1.0", ["example.com"]⟩ ∧
    SchemaInfo.fromStr
        "--@name: t\n--@author: a\n--@description: d\n--@lh-version: 1.0\n--@legal-domains: example.com\n\n" =
      .error (.scriptParseError "missing field: id") ∧
    SchemaInfo.fromStr
        "--@id: 198ca153-ccae-4f82-9218-9b6657796b57\n--@author: a\n--@description: d\n--@lh-version: 1.0\n--@legal-domains: example.com\n\n" =
      .error (.scriptParseError "missing field: name") ∧
    SchemaInfo.fromStr
        "--@id: 198ca153-ccae-4f82-9218-9b6657796b57\n--@name: t\n--@description: d\n--@lh-version: 1.0\n--@legal-domains: example.com\n\n" =
      .error (.scriptParseError "missing field: author") ∧
    SchemaInfo.fromStr
        "--@id: 198ca153-ccae-4f82-9218-9b6657796b57\n--@name: t\n--@author: a\n--@lh-version: 1.0\n--@legal-domains: example.com\n\n" =
      .error (.scriptParseError "missing field: description") ∧
    SchemaInfo.fromStr
        "--@id: 198ca153-ccae-4f82-9218-9b6657796b57\n--@name: t\n--@author: a\n--@description: d\n--@legal-domains: example.com\n\n" =
      .error (.scriptParseError "missing field: lh-version") :=
  ⟨rfl, rfl, rfl, rfl, rfl, rfl, rfl, rfl⟩

end LangHuan
